import Mathlib

/-!
Shallow embedding of the tarot-card reader's frame-analysis and
identification pipeline (`src/scripts/generate-master-list.mjs`, hook
`useTarotReader`).

JavaScript numbers are modelled as exact reals extended with the IEEE
special values `NaN`, `+Infinity` and `-Infinity` (rounding is ignored,
signed zero is identified with zero).  Division, `Math.min`, `Math.max`,
`Math.acos` and comparison against `NaN` follow the JavaScript semantics:
`0/0 = NaN`, `x/0 = ±Infinity` for `x ≠ 0`, and every `<` / `>` comparison
involving `NaN` is false.
-/

/-- Result of a JavaScript floating-point computation: a finite real,
one of the two infinities, or `NaN`. -/
inductive JsNum where
  | num (x : ℝ)
  | posInf
  | negInf
  | nan

/-- JavaScript comparison `v < c` against a finite constant `c`. -/
def JsNum.ltR : JsNum → ℝ → Prop
  | .num x, c => x < c
  | .posInf, _ => False
  | .negInf, _ => True
  | .nan, _ => False

/-- JavaScript comparison `v > c` against a finite constant `c`. -/
def JsNum.gtR : JsNum → ℝ → Prop
  | .num x, c => c < x
  | .posInf, _ => True
  | .negInf, _ => False
  | .nan, _ => False

/-- JavaScript division of two finite values: `0/0` is `NaN`, `a/0` is
`±Infinity` for `a ≠ 0`, otherwise the exact quotient. -/
noncomputable def jsDiv (a b : ℝ) : JsNum :=
  if b = 0 then (if a = 0 then .nan else if 0 < a then .posInf else .negInf)
  else .num (a / b)

/-- `Math.min(c, v)` with a finite first argument: `NaN` propagates. -/
noncomputable def jsMinC (c : ℝ) : JsNum → JsNum
  | .num y => .num (min c y)
  | .posInf => .num c
  | .negInf => .negInf
  | .nan => .nan

/-- `Math.max(c, v)` with a finite first argument: `NaN` propagates. -/
noncomputable def jsMaxC (c : ℝ) : JsNum → JsNum
  | .num y => .num (max c y)
  | .posInf => .posInf
  | .negInf => .num c
  | .nan => .nan

/-- `Math.acos`: `NaN` outside `[-1, 1]` and on every non-finite input. -/
noncomputable def jsAcos : JsNum → JsNum
  | .num y => if y < -1 ∨ 1 < y then .nan else .num (Real.arccos y)
  | _ => .nan

/-- JavaScript multiplication of a value by a finite constant. -/
noncomputable def jsMulC : JsNum → ℝ → JsNum
  | .num y, c => .num (y * c)
  | .posInf, c => if c = 0 then .nan else if 0 < c then .posInf else .negInf
  | .negInf, c => if c = 0 then .nan else if 0 < c then .negInf else .posInf
  | .nan, _ => .nan

/-- Length of the segment from `p` to `q`:
`Math.sqrt(dx*dx + dy*dy)` in `checkRectangleShape`. -/
noncomputable def edgeDist (p q : ℝ × ℝ) : ℝ :=
  Real.sqrt ((q.1 - p.1) * (q.1 - p.1) + (q.2 - p.2) * (q.2 - p.2))

/-- One iteration of the angle loop of `checkRectangleShape`: the angle in
degrees between the edge vectors `p2 - p1` and `p3 - p2`, via
`Math.acos(Math.max(-1, Math.min(1, dot / (len1 * len2)))) * (180 / Math.PI)`. -/
noncomputable def cornerAngle (p1 p2 p3 : ℝ × ℝ) : JsNum :=
  let v1x := p2.1 - p1.1
  let v1y := p2.2 - p1.2
  let v2x := p3.1 - p2.1
  let v2y := p3.2 - p2.2
  let dot := v1x * v2x + v1y * v2y
  let len1 := Real.sqrt (v1x * v1x + v1y * v1y)
  let len2 := Real.sqrt (v2x * v2x + v2y * v2y)
  jsMulC (jsAcos (jsMaxC (-1) (jsMinC 1 (jsDiv dot (len1 * len2))))) (180 / Real.pi)

open Classical in
/-- `checkRectangleShape` from `generate-master-list.mjs` lines 204-262:
rejects unless the list has exactly 4 points, both opposite-side length
ratios are at least 0.9, the aspect ratio lies in `[0.5, 2.0]`, and all
four corner angles lie in `[70°, 110°]`.  The fixed four-iteration angle
loop is unrolled. -/
noncomputable def checkRectangleShape (ps : List (ℝ × ℝ)) : Bool :=
  match ps with
  | [p0, p1, p2, p3] =>
    let d0 := edgeDist p0 p1
    let d1 := edgeDist p1 p2
    let d2 := edgeDist p2 p3
    let d3 := edgeDist p3 p0
    if (jsDiv (min d0 d2) (max d0 d2)).ltR 0.9 ∨
       (jsDiv (min d1 d3) (max d1 d3)).ltR 0.9 then false
    else if (jsDiv (max d0 d2) (max d1 d3)).ltR 0.5 ∨
            (jsDiv (max d0 d2) (max d1 d3)).gtR 2.0 then false
    else if (cornerAngle p0 p1 p2).ltR 70 ∨ (cornerAngle p0 p1 p2).gtR 110 then false
    else if (cornerAngle p1 p2 p3).ltR 70 ∨ (cornerAngle p1 p2 p3).gtR 110 then false
    else if (cornerAngle p2 p3 p0).ltR 70 ∨ (cornerAngle p2 p3 p0).gtR 110 then false
    else if (cornerAngle p3 p0 p1).ltR 70 ∨ (cornerAngle p3 p0 p1).gtR 110 then false
    else true
  | _ => false

/-- The real number computed by the angle loop when both edge vectors are
nonzero (no `NaN` is produced on that path). -/
noncomputable def cornerAngleDeg (p1 p2 p3 : ℝ × ℝ) : ℝ :=
  let v1x := p2.1 - p1.1
  let v1y := p2.2 - p1.2
  let v2x := p3.1 - p2.1
  let v2y := p3.2 - p2.2
  let dot := v1x * v2x + v1y * v2y
  let len1 := Real.sqrt (v1x * v1x + v1y * v1y)
  let len2 := Real.sqrt (v2x * v2x + v2y * v2y)
  Real.arccos (max (-1) (min 1 (dot / (len1 * len2)))) * (180 / Real.pi)

/-- Interior angle of the quadrilateral at the middle vertex `p2`: the
supplement of the angle between the consecutive edge vectors `p2 - p1`
and `p3 - p2`. -/
noncomputable def interiorAngle (p1 p2 p3 : ℝ × ℝ) : ℝ :=
  180 - cornerAngleDeg p1 p2 p3

/-- Coordinate sum `x + y` used by `sortRectanglePoints` to pick the
top-left (minimal) and bottom-right (maximal) corners. -/
def psum {α : Type} [LinearOrderedRing α] (p : α × α) : α := p.1 + p.2

/-- Coordinate difference `x - y` used by `sortRectanglePoints` to pick the
top-right (maximal) and bottom-left (minimal) corners. -/
def pdiff {α : Type} [LinearOrderedRing α] (p : α × α) : α := p.1 - p.2

/-- `sortRectanglePoints` from `generate-master-list.mjs` lines 184-201:
for a 4-point list, returns `[leftTop, rightTop, rightBottom, leftBottom]`
where each corner is selected by a `reduce` with a strict comparison
(so the earliest point wins every tie); other lengths are returned
unchanged. -/
def sortRectanglePoints {α : Type} [LinearOrderedRing α]
    (ps : List (α × α)) : List (α × α) :=
  match ps with
  | [p0, p1, p2, p3] =>
    let l := [p0, p1, p2, p3]
    let leftTop := l.foldl (fun m p => if psum p < psum m then p else m) p0
    let rightBottom := l.foldl (fun m p => if psum m < psum p then p else m) p0
    let rightTop := l.foldl (fun m p => if pdiff m < pdiff p then p else m) p0
    let leftBottom := l.foldl (fun m p => if pdiff p < pdiff m then p else m) p0
    [leftTop, rightTop, rightBottom, leftBottom]
  | _ => ps

/-- Binary feature descriptor: the fixed-length bit string produced by the
ORB extractor for one keypoint (one descriptor per extracted keypoint). -/
abbrev Desc := List Bool

/-- Hamming distance between two binary descriptors (`cv.NORM_HAMMING`). -/
def hamming (a b : Desc) : ℕ :=
  (List.zipWith (fun x y => x != y) a b).count true

/-- Distances of the matches returned by `matcher.match(query, train)`
with a brute-force Hamming matcher and `crossCheck = false`: one best
(minimum-distance) match per query descriptor, and no matches at all when
the train set is empty. -/
def matchDistances (qs ts : List Desc) : List ℕ :=
  match ts with
  | [] => []
  | t :: rest => qs.map (fun q => rest.foldl (fun m u => min m (hamming q u)) (hamming q t))

/-- Good-match count for one reference image, `generate-master-list.mjs`
lines 1016-1041: `minDistance` starts at `Infinity` (modelled by `⊤` in
`WithTop ℕ`) and is lowered over all match distances, the adaptive
threshold is `Math.max(30, minDistance * 2)`, and matches with
`distance < threshold` are counted. -/
def goodMatchCount (qs ts : List Desc) : ℕ :=
  let ds := matchDistances qs ts
  let minDistance : WithTop ℕ :=
    ds.foldl (fun (m : WithTop ℕ) (d : ℕ) => if (d : WithTop ℕ) < m then (d : WithTop ℕ) else m) ⊤
  let threshold : WithTop ℕ := max 30 (minDistance * 2)
  (ds.filter (fun (d : ℕ) => decide ((d : WithTop ℕ) < threshold))).length

/-- Score of one identity, `generate-master-list.mjs` lines 1011-1052: the
maximum good-match count over all of the identity's reference images,
starting from `maxScore = 0`. -/
def identityScore (qs : List Desc) (images : List (List Desc)) : ℕ :=
  images.foldl
    (fun maxScore img =>
      if goodMatchCount qs img > maxScore then goodMatchCount qs img else maxScore) 0

/-- Ranked candidate exposed to the UI: display name plus match count. -/
structure Candidate where
  cardName : String
  matchCount : ℕ
deriving DecidableEq

/-- Reference data held for one identity in `masterDataMapRef`: a display
name and one descriptor set per successfully processed reference image. -/
structure MasterData where
  displayName : String
  images : List (List Desc)
deriving DecidableEq

/-- Display-name resolution used when building candidates:
`masterDataMapRef.current.get(cardName)?.displayName || cardName`
(the JavaScript `||` also falls back on an empty display name). -/
def displayNameFor (db : List (String × MasterData)) (n : String) : String :=
  match db.lookup n with
  | some m => if m.displayName = "" then n else m.displayName
  | none => n

/-- `performMatching`, `generate-master-list.mjs` lines 978-1073: refuses
(returns `none`, without touching the exposed candidate list) when the
reference database is empty; otherwise scores every identity in database
order, sorts descending by score with a stable sort, and resolves display
names.  The database is an association list mirroring the `Map`'s
iteration order. -/
def performMatching (qs : List Desc) (db : List (String × MasterData)) :
    Option (List Candidate) :=
  if db.isEmpty then none
  else
    let matchResults : List (String × ℕ) :=
      db.map (fun e => (e.1, identityScore qs e.2.images))
    let sorted := matchResults.insertionSort (fun a b => b.2 ≤ a.2)
    some (sorted.map (fun e => { cardName := displayNameFor db e.1, matchCount := e.2 }))

/-- React state update for `candidates`: `setCandidates` runs only when
`performMatching` actually computed a ranking; an early return leaves the
previously exposed list in place. -/
def exposedCandidates (prev : List Candidate) (result : Option (List Candidate)) :
    List Candidate :=
  result.getD prev

/-- `loadCardImages`: per-image load-and-extract results with failures
(`null` resolutions) filtered out, keeping order. -/
def loadCardImages (imgs : List (Option (List Desc))) : List (List Desc) :=
  imgs.filterMap id

/-- Lookup in the static `CARD_DISPLAY_NAMES` table:
`CARD_DISPLAY_NAMES[cardName] || cardName`. -/
def displayNameOf (dn : List (String × String)) (n : String) : String :=
  match dn.lookup n with
  | some d => if d = "" then n else d
  | none => n

/-- Result of `initializeMasterData`: the built reference map, the
success and total counts it reports, and the readiness flag. -/
structure BuilderResult where
  db : List (String × MasterData)
  successCount : ℕ
  totalCount : ℕ
  ready : Bool
deriving DecidableEq

/-- Handling of one listed identity inside `initializeMasterData`: its
successfully processed images are collected, and an identity with none is
not inserted into the map at all. -/
def buildEntry (dn : List (String × String))
    (e : String × List (Option (List Desc))) : Option (String × MasterData) :=
  let arr := loadCardImages e.2
  if arr.isEmpty then none else some (e.1, MasterData.mk (displayNameOf dn e.1) arr)

/-- `initializeMasterData`, `generate-master-list.mjs` lines 416-467:
applies `buildEntry` to every listed identity; `successCount` counts
identities with at least one successfully processed image, `totalCount`
counts all listed identities, and the database is marked ready exactly
when `successCount > 0`.  Map insertion order is abstracted to list order
(the claims checked here do not depend on it). -/
def initializeMasterData (dn : List (String × String))
    (ml : List (String × List (Option (List Desc)))) : BuilderResult :=
  let db := ml.filterMap (buildEntry dn)
  let results := ml.map (fun e => !(loadCardImages e.2).isEmpty)
  let successCount := (results.filter (fun r => r)).length
  BuilderResult.mk db successCount ml.length (decide (successCount > 0))

/-- Stability-tracker state held across draw-loop cycles:
`detectedRectImage`, `lastDetectionTimeRef`, the pending debounce timer
(modelled by its scheduled fire time in milliseconds), and
`rectDetectionCountRef`. -/
structure TrackerState where
  detectedRectImage : Option String
  lastDetectionTime : Option ℕ
  detectionTimeout : Option ℕ
  rectDetectionCount : ℕ
deriving DecidableEq

/-- The `setTimeout` callback of `drawLoop` lines 838-843, fired when the
current time has reached the scheduled deadline: clears the held crop,
the last-detection time and the timer itself (the detection counter is
untouched). -/
def fireTimeoutIfDue (s : TrackerState) (now : ℕ) : TrackerState :=
  match s.detectionTimeout with
  | some d =>
    if d ≤ now then
      TrackerState.mk none none none s.rectDetectionCount
    else s
  | none => s

/-- Successful detection branch of `drawLoop` lines 800-845: store the
fresh crop, record `Date.now()`, clear any pending timer and schedule a
new one 1000 ms ahead, and increment the consecutive-detection counter. -/
def onDetectionSuccess (s : TrackerState) (crop : String) (now : ℕ) : TrackerState :=
  TrackerState.mk (some crop) (some now) (some (now + 1000)) (s.rectDetectionCount + 1)

/-- Failed detection branch (`drawLoop` lines 863-876): the counter resets
to 0 while the held crop and the pending timer are left untouched. -/
def onDetectionMiss (s : TrackerState) : TrackerState :=
  TrackerState.mk s.detectedRectImage s.lastDetectionTime s.detectionTimeout 0

/-- One analysis cycle at time `now`: any due timer callback runs before
the frame is processed, then the detection result is applied. -/
def stepCycle (s : TrackerState) (det : Option String) (now : ℕ) : TrackerState :=
  let s1 := fireTimeoutIfDue s now
  match det with
  | some crop => onDetectionSuccess s1 crop now
  | none => onDetectionMiss s1

/-- A run of consecutive detection-miss cycles at the given times. -/
def runMisses (s : TrackerState) (times : List ℕ) : TrackerState :=
  times.foldl (fun st t => stepCycle st none t) s

/-- `addToBlacklist`: appends the display name to the session blacklist
(`[...prev, card]`). -/
def addToBlacklist (bl : List String) (card : String) : List String :=
  bl ++ [card]

/-- `filteredCandidates`, `generate-master-list.mjs` line 1183: keeps the
candidates whose display name is not in the blacklist. -/
def filteredCandidates (cs : List Candidate) (bl : List String) : List Candidate :=
  cs.filter (fun c => !(bl.contains c.cardName))

/-! Helper lemmas about the matching pipeline. -/

theorem hamming_self (a : Desc) : hamming a a = 0 := by
  induction a with
  | nil => rfl
  | cons x xs ih => simpa [hamming, List.count_cons] using ih

theorem foldl_min_le_acc (q : Desc) (l : List Desc) (a : ℕ) :
    l.foldl (fun m u => min m (hamming q u)) a ≤ a := by
  induction l generalizing a with
  | nil => exact le_rfl
  | cons x xs ih => exact le_trans (ih _) (min_le_left _ _)

theorem foldl_min_le_mem (q : Desc) (l : List Desc) (u : Desc) :
    ∀ a : ℕ, u ∈ l → l.foldl (fun m v => min m (hamming q v)) a ≤ hamming q u := by
  induction l with
  | nil => intro a hu; cases hu
  | cons x xs ih =>
    intro a hu
    rcases List.mem_cons.mp hu with rfl | hu'
    · exact le_trans (foldl_min_le_acc q xs _) (min_le_right _ _)
    · exact ih _ hu'

theorem matchDistances_self (qs : List Desc) : ∀ d ∈ matchDistances qs qs, d = 0 := by
  match qs with
  | [] => intro d hd; cases hd
  | t :: rest =>
    intro d hd
    simp only [matchDistances, List.mem_map] at hd
    obtain ⟨q, hq, rfl⟩ := hd
    refine Nat.le_zero.mp ?_
    rcases List.mem_cons.mp hq with rfl | hq'
    · exact le_trans (foldl_min_le_acc q rest _) (le_of_eq (hamming_self q))
    · exact le_trans (foldl_min_le_mem q rest q _ hq') (le_of_eq (hamming_self q))

theorem matchDistances_length_le (qs ts : List Desc) :
    (matchDistances qs ts).length ≤ qs.length := by
  match ts with
  | [] => exact Nat.zero_le _
  | t :: rest => simp [matchDistances]

theorem goodMatchCount_le (qs ts : List Desc) : goodMatchCount qs ts ≤ qs.length :=
  le_trans (List.length_filter_le _ _) (matchDistances_length_le qs ts)

theorem foldl_minDistance_zero (l : List ℕ) (h : ∀ d ∈ l, d = 0) :
    l.foldl (fun (m : WithTop ℕ) (d : ℕ) => if (d : WithTop ℕ) < m then (d : WithTop ℕ) else m)
      (0 : WithTop ℕ) = (0 : WithTop ℕ) := by
  induction l with
  | nil => rfl
  | cons x xs ih =>
    have hx : x = 0 := h x (List.mem_cons_self x xs)
    subst hx
    simpa using ih (fun d hd => h d (List.mem_cons_of_mem _ hd))

theorem goodMatchCount_self (qs : List Desc) : goodMatchCount qs qs = qs.length := by
  match qs with
  | [] => rfl
  | t :: rest =>
    have hz := matchDistances_self (t :: rest)
    have hlen : (matchDistances (t :: rest) (t :: rest)).length = (t :: rest).length := by
      simp [matchDistances]
    obtain ⟨d0, ds, hds⟩ : ∃ d0 ds, matchDistances (t :: rest) (t :: rest) = d0 :: ds := by
      cases hmd : matchDistances (t :: rest) (t :: rest) with
      | nil => rw [hmd] at hlen; cases hlen
      | cons a b => exact ⟨a, b, rfl⟩
    rw [hds] at hz hlen
    have hd0 : d0 = 0 := hz d0 (List.mem_cons_self _ _)
    subst hd0
    have hmin :
        (0 :: ds).foldl
          (fun (m : WithTop ℕ) (d : ℕ) => if (d : WithTop ℕ) < m then (d : WithTop ℕ) else m)
          (⊤ : WithTop ℕ) = (0 : WithTop ℕ) := by
      have h0 : ((0 : ℕ) : WithTop ℕ) < (⊤ : WithTop ℕ) := by decide
      simp only [List.foldl, if_pos h0]
      exact foldl_minDistance_zero ds (fun d hd => hz d (List.mem_cons_of_mem _ hd))
    have hall : ∀ d ∈ (0 : ℕ) :: ds,
        (fun (d : ℕ) =>
          decide ((d : WithTop ℕ) < max (30 : WithTop ℕ) ((0 : WithTop ℕ) * 2))) d = true := by
      intro d hd
      have hd' : d = 0 := hz d hd
      subst hd'
      decide
    simp only [goodMatchCount, hds, hmin]
    rw [List.filter_eq_self.mpr hall]
    exact hlen

theorem identityScore_acc_le {qs : List Desc} {B : ℕ} (imgs : List (List Desc))
    (h : ∀ i ∈ imgs, goodMatchCount qs i ≤ B) :
    ∀ a ≤ B, imgs.foldl
      (fun maxScore img =>
        if goodMatchCount qs img > maxScore then goodMatchCount qs img else maxScore) a ≤ B := by
  induction imgs with
  | nil => intro a ha; exact ha
  | cons i rest ih =>
    intro a ha
    refine ih (fun j hj => h j (List.mem_cons_of_mem _ hj)) _ ?_
    by_cases hgt : goodMatchCount qs i > a
    · simpa [hgt] using h i (List.mem_cons_self _ _)
    · simpa [hgt] using ha

theorem identityScore_acc_ge (qs : List Desc) (imgs : List (List Desc)) :
    ∀ a, a ≤ imgs.foldl
      (fun maxScore img =>
        if goodMatchCount qs img > maxScore then goodMatchCount qs img else maxScore) a := by
  induction imgs with
  | nil => intro a; exact le_rfl
  | cons i rest ih =>
    intro a
    refine le_trans ?_ (ih _)
    by_cases hgt : goodMatchCount qs i > a
    · simp [hgt, le_of_lt hgt]
    · simp [hgt]

theorem identityScore_fold_ge_mem (qs : List Desc) (imgs : List (List Desc)) :
    ∀ (a : ℕ) (i : List Desc), i ∈ imgs →
      goodMatchCount qs i ≤ imgs.foldl
        (fun maxScore img =>
          if goodMatchCount qs img > maxScore then goodMatchCount qs img else maxScore) a := by
  induction imgs with
  | nil => intro a i hi; cases hi
  | cons j rest ih =>
    intro a i hi
    rcases List.mem_cons.mp hi with rfl | hi'
    · simp only [List.foldl]
      refine le_trans ?_ (identityScore_acc_ge qs rest _)
      by_cases hgt : goodMatchCount qs i > a
      · simp [hgt]
      · simp [hgt, Nat.not_lt.mp hgt]
    · exact ih _ i hi'

theorem identityScore_ge_mem (qs : List Desc) (imgs : List (List Desc)) (i : List Desc)
    (hi : i ∈ imgs) : goodMatchCount qs i ≤ identityScore qs imgs :=
  identityScore_fold_ge_mem qs imgs 0 i hi

/-- C2: the identification score of an identity is monotonically
non-decreasing as more reference images are supplied: for any capture and
any identity, the score over a list of reference images is at most the
score over that list with one more reference image appended, because the
score is the maximum good-match count across the reference images. -/
theorem identityScore_mono_append (qs : List Desc) (imgs : List (List Desc))
    (img : List Desc) :
    identityScore qs imgs ≤ identityScore qs (imgs ++ [img]) := by
  unfold identityScore
  rw [List.foldl_append]
  simp only [List.foldl]
  by_cases hgt : goodMatchCount qs img > imgs.foldl
      (fun maxScore i =>
        if goodMatchCount qs i > maxScore then goodMatchCount qs i else maxScore) 0
  · simp only [if_pos hgt]
    exact le_of_lt hgt
  · simp only [if_neg hgt]
    exact le_rfl

/-- C3: if the captured image is bit-identical to one of an identity's
reference images (so feature extraction yields the same descriptor set),
that identity's score equals the number of keypoints extracted from the
capture: every capture descriptor matches itself at Hamming distance 0,
the adaptive threshold becomes `max(30, 0) = 30`, and all matches count,
while no other reference image can contribute more than one match per
capture descriptor. -/
theorem identityScore_of_identical (qs : List Desc) (imgs : List (List Desc))
    (h : qs ∈ imgs) : identityScore qs imgs = qs.length := by
  refine le_antisymm ?_ ?_
  · exact identityScore_acc_le imgs (fun i _ => goodMatchCount_le qs i) 0 (Nat.zero_le _)
  · exact le_trans (le_of_eq (goodMatchCount_self qs).symm) (identityScore_ge_mem qs imgs qs h)

/-- Witness for C3 at a concrete one-descriptor capture matching a
one-image identity. -/
theorem identityScore_of_identical_witness :
    identityScore [[true]] [[[true]]] = 1 :=
  identityScore_of_identical [[true]] [[[true]]] (by decide)

/-- C5: with an empty (not ready) reference database, invoking
identification refuses with a `none` signal instead of an error, and the
exposed candidate list afterwards is empty. -/
theorem performMatching_empty_db (qs : List Desc) :
    performMatching qs [] = none ∧
      exposedCandidates [] (performMatching qs []) = [] := by
  constructor
  · rfl
  · rfl

/-- C7: if the capture yields zero descriptors, identification completes
with every identity scoring 0, and every candidate in the produced
ranking has `matchCount = 0` (the per-image match lists are all empty, so
`minDistance` stays `Infinity` and the threshold is `Infinity`, but no
match exists to count). -/
theorem zero_descriptor_ranking (db : List (String × MasterData)) :
    (∀ e ∈ db, identityScore [] e.2.images = 0) ∧
    ∀ cands, performMatching [] db = some cands → ∀ c ∈ cands, c.matchCount = 0 := by
  have hgmc : ∀ ts : List Desc, goodMatchCount [] ts = 0 := by
    intro ts
    cases ts with
    | nil => rfl
    | cons t rest => rfl
  have hscore : ∀ imgs : List (List Desc), identityScore [] imgs = 0 := by
    intro imgs
    unfold identityScore
    induction imgs with
    | nil => rfl
    | cons i rest ih => simpa [hgmc i] using ih
  refine ⟨fun e _ => hscore _, ?_⟩
  intro cands hc c hmem
  by_cases hdb : db.isEmpty
  · simp [performMatching, hdb] at hc
  · simp only [performMatching, if_neg hdb, Option.some.injEq] at hc
    subst hc
    obtain ⟨e, he, rfl⟩ := List.mem_map.mp hmem
    have hperm := List.perm_insertionSort (fun a b : String × ℕ => b.2 ≤ a.2)
      (db.map (fun e => (e.1, identityScore [] e.2.images)))
    have he' := hperm.mem_iff.mp he
    obtain ⟨d, _, rfl⟩ := List.mem_map.mp he'
    exact hscore _

/-- Witness for C7 on a concrete one-identity database. -/
theorem zero_descriptor_ranking_witness :
    ∀ c ∈ [Candidate.mk "F" 0], c.matchCount = 0 :=
  (zero_descriptor_ranking [("A", MasterData.mk "F" [])]).2
    [Candidate.mk "F" 0] (by decide)

/-- C9: exclusion is set-idempotent and order-preserving: adding the same
display name to the blacklist twice filters to the same candidate list as
adding it once, and the filtered list is a sublist of the input (relative
order of surviving candidates preserved). -/
theorem blacklist_idempotent_and_order (cs : List Candidate) (bl : List String)
    (card : String) :
    filteredCandidates cs (addToBlacklist (addToBlacklist bl card) card) =
      filteredCandidates cs (addToBlacklist bl card) ∧
    (filteredCandidates cs (addToBlacklist bl card)).Sublist cs := by
  constructor
  · refine List.filter_congr ?_
    intro c _
    by_cases hmem : c.cardName ∈ bl <;> by_cases heq : c.cardName = card <;>
      simp [addToBlacklist, hmem, heq]
  · exact List.filter_sublist cs

/-- Miss-cycles that all happen strictly inside the debounce window leave
the held crop and the scheduled timer deadline untouched. -/
theorem runMisses_preserve (d : ℕ) (times : List ℕ) :
    ∀ s : TrackerState, s.detectionTimeout = some d → (∀ u ∈ times, u < d) →
      (runMisses s times).detectedRectImage = s.detectedRectImage ∧
      (runMisses s times).detectionTimeout = some d := by
  induction times with
  | nil => intro s h _; exact ⟨rfl, h⟩
  | cons t rest ih =>
    intro s h hu
    have hlt : t < d := hu t (List.mem_cons_self _ _)
    have hstep : stepCycle s none t =
        TrackerState.mk s.detectedRectImage s.lastDetectionTime s.detectionTimeout 0 := by
      simp [stepCycle, fireTimeoutIfDue, h, Nat.not_le.mpr hlt, onDetectionMiss]
    have hrun : runMisses s (t :: rest) = runMisses (stepCycle s none t) rest := rfl
    rw [hrun, hstep]
    exact ih _ h (fun u hu' => hu u (List.mem_cons_of_mem _ hu'))

/-- C4: after a successful detection at time `t0` the crop is recorded and
the debounce deadline is reset to `t0 + 1000` (whatever the previous state
was); the crop stays available through any sequence of later cycles in
which detection returns none, as long as they happen before `t0 + 1000`;
and the first cycle at or after `t0 + 1000` fires the timer, clearing both
the crop and the timer, so the timer fires exactly once per detection
loss. -/
theorem debounce_spec (s0 : TrackerState) (crop : String) (t0 : ℕ)
    (misses : List ℕ) (t : ℕ)
    (hm : ∀ u ∈ misses, u < t0 + 1000) (ht : t0 + 1000 ≤ t) :
    (stepCycle s0 (some crop) t0).detectedRectImage = some crop ∧
    (stepCycle s0 (some crop) t0).detectionTimeout = some (t0 + 1000) ∧
    (runMisses (stepCycle s0 (some crop) t0) misses).detectedRectImage = some crop ∧
    (runMisses (stepCycle s0 (some crop) t0) misses).detectionTimeout = some (t0 + 1000) ∧
    (stepCycle (runMisses (stepCycle s0 (some crop) t0) misses) none t).detectedRectImage
      = none ∧
    (stepCycle (runMisses (stepCycle s0 (some crop) t0) misses) none t).detectionTimeout
      = none := by
  have h1img : (stepCycle s0 (some crop) t0).detectedRectImage = some crop := rfl
  have h1to : (stepCycle s0 (some crop) t0).detectionTimeout = some (t0 + 1000) := rfl
  obtain ⟨h2img, h2to⟩ := runMisses_preserve (t0 + 1000) misses _ h1to hm
  rw [h1img] at h2img
  have hfire : stepCycle (runMisses (stepCycle s0 (some crop) t0) misses) none t =
      TrackerState.mk none none none 0 := by
    generalize hgen : runMisses (stepCycle s0 (some crop) t0) misses = s2 at h2to
    simp [stepCycle, fireTimeoutIfDue, h2to, ht, onDetectionMiss]
  exact ⟨h1img, h1to, h2img, h2to, by rw [hfire], by rw [hfire]⟩

/-- Concrete instance of C4: detection at 0 ms, misses at 100 ms and
900 ms keep the crop, and the cycle at 1000 ms clears it. -/
theorem debounce_spec_witness :
    (stepCycle (TrackerState.mk none none none 0) (some "c") 0).detectedRectImage
      = some "c" ∧
    (stepCycle (TrackerState.mk none none none 0) (some "c") 0).detectionTimeout
      = some (0 + 1000) ∧
    (runMisses (stepCycle (TrackerState.mk none none none 0) (some "c") 0)
        [100, 900]).detectedRectImage = some "c" ∧
    (runMisses (stepCycle (TrackerState.mk none none none 0) (some "c") 0)
        [100, 900]).detectionTimeout = some (0 + 1000) ∧
    (stepCycle (runMisses (stepCycle (TrackerState.mk none none none 0) (some "c") 0)
        [100, 900]) none 1000).detectedRectImage = none ∧
    (stepCycle (runMisses (stepCycle (TrackerState.mk none none none 0) (some "c") 0)
        [100, 900]) none 1000).detectionTimeout = none :=
  debounce_spec (TrackerState.mk none none none 0) "c" 0 [100, 900] 1000
    (by decide) (by decide)

/-- An identity produces a database entry exactly when it has at least one
successfully processed image. -/
theorem buildEntry_eq_none_iff (dn : List (String × String))
    (e : String × List (Option (List Desc))) :
    buildEntry dn e = none ↔ loadCardImages e.2 = [] := by
  by_cases he : (loadCardImages e.2).isEmpty
  · simp [buildEntry, he, List.isEmpty_iff.mp he]
  · simp [buildEntry, he]
    exact fun hc => he (by simp [hc])

/-- The reported success count equals the number of entries actually
inserted into the reference map. -/
theorem successCount_eq_db_length (dn : List (String × String))
    (ml : List (String × List (Option (List Desc)))) :
    (initializeMasterData dn ml).successCount = (initializeMasterData dn ml).db.length := by
  simp only [initializeMasterData]
  induction ml with
  | nil => rfl
  | cons e rest ih =>
    by_cases he : (loadCardImages e.2).isEmpty <;>
      simp [buildEntry, he, ih]

/-- C6: the builder marks the database ready iff at least one listed
identity has at least one successfully processed reference image; an
identity whose images all fail is never inserted into the map; every
inserted entry carries at least one signature; and the reported ratio is
`successCount` (the number of inserted identities) over `totalCount` (all
listed identities). -/
theorem builder_spec (dn : List (String × String))
    (ml : List (String × List (Option (List Desc))))
    (hnd : (ml.map Prod.fst).Nodup) :
    ((initializeMasterData dn ml).ready = true ↔ ∃ e ∈ ml, loadCardImages e.2 ≠ []) ∧
    (∀ e ∈ ml, loadCardImages e.2 = [] →
      ∀ q ∈ (initializeMasterData dn ml).db, q.1 ≠ e.1) ∧
    (initializeMasterData dn ml).successCount = (initializeMasterData dn ml).db.length ∧
    (initializeMasterData dn ml).totalCount = ml.length ∧
    (∀ q ∈ (initializeMasterData dn ml).db, q.2.images ≠ []) := by
  have hdb : (initializeMasterData dn ml).db = ml.filterMap (buildEntry dn) := rfl
  have hmem : ∀ q ∈ (initializeMasterData dn ml).db,
      ∃ a ∈ ml, loadCardImages a.2 ≠ [] ∧ q.1 = a.1 ∧ q.2.images = loadCardImages a.2 := by
    intro q hq
    rw [hdb] at hq
    obtain ⟨a, ha, hfa⟩ := List.mem_filterMap.mp hq
    by_cases he : (loadCardImages a.2).isEmpty
    · simp [buildEntry, he] at hfa
    · refine ⟨a, ha, fun hc => he (by simp [hc]), ?_, ?_⟩
      · simp only [buildEntry, if_neg he, Option.some.injEq] at hfa
        rw [← hfa]
      · simp only [buildEntry, if_neg he, Option.some.injEq] at hfa
        rw [← hfa]
  refine ⟨?_, ?_, successCount_eq_db_length dn ml, rfl, ?_⟩
  · have hready : (initializeMasterData dn ml).ready
        = decide ((initializeMasterData dn ml).successCount > 0) := rfl
    rw [hready, successCount_eq_db_length dn ml]
    constructor
    · intro h
      have hlen : 0 < (initializeMasterData dn ml).db.length := by
        exact of_decide_eq_true h
      obtain ⟨q, hq⟩ := List.exists_mem_of_length_pos hlen
      obtain ⟨a, ha, hane, _, _⟩ := hmem q hq
      exact ⟨a, ha, hane⟩
    · intro ⟨e, he, hene⟩
      refine decide_eq_true ?_
      rw [hdb]
      rcases hlen : (ml.filterMap (buildEntry dn)).length with _ | n
      · exfalso
        have hnil : ml.filterMap (buildEntry dn) = [] := List.length_eq_zero.mp hlen
        have := (List.filterMap_eq_nil_iff.mp hnil) e he
        exact hene ((buildEntry_eq_none_iff dn e).mp this)
      · exact Nat.succ_pos n
  · intro e hme hfail q hq
    obtain ⟨a, ha, hane, hq1, _⟩ := hmem q hq
    intro hcontra
    have : a = e := List.inj_on_of_nodup_map hnd ha hme (by rw [← hq1, hcontra])
    exact hane (this ▸ hfail)
  · intro q hq
    obtain ⟨a, _, hane, _, hq2⟩ := hmem q hq
    rw [hq2]
    exact hane

/-- Witness for C6 on a two-identity list where the second identity's only
image fails to load. -/
theorem builder_spec_witness :
    ((initializeMasterData []
        [("A", [some [[true]]]), ("B", [none])]).ready = true ↔
      ∃ e ∈ [("A", [some [[true]]]), ("B", [(none : Option (List Desc))])],
        loadCardImages e.2 ≠ []) ∧
    (∀ e ∈ [("A", [some [[true]]]), ("B", [(none : Option (List Desc))])],
      loadCardImages e.2 = [] →
      ∀ q ∈ (initializeMasterData [] [("A", [some [[true]]]), ("B", [none])]).db,
        q.1 ≠ e.1) ∧
    (initializeMasterData [] [("A", [some [[true]]]), ("B", [none])]).successCount =
      (initializeMasterData [] [("A", [some [[true]]]), ("B", [none])]).db.length ∧
    (initializeMasterData [] [("A", [some [[true]]]), ("B", [none])]).totalCount =
      [("A", [some [[true]]]), ("B", [(none : Option (List Desc))])].length ∧
    (∀ q ∈ (initializeMasterData [] [("A", [some [[true]]]), ("B", [none])]).db,
      q.2.images ≠ []) :=
  builder_spec [] [("A", [some [[true]]]), ("B", [none])] (by decide)

/-- Counterexample to C8 as stated: the quad
`[(0,4),(4,0),(0,0),(1,0)]` canonically reorders to
`[(0,0),(4,0),(0,4),(0,4)]`, an already canonically ordered quad whose
reordering is `[(0,0),(4,0),(4,0),(0,4)]` — applying the reordering again
changes the quad, because two distinct points tie for the maximal `x+y`
and the earliest-in-list tie-break then picks a different point. -/
theorem sortRectanglePoints_not_idempotent :
    sortRectanglePoints (sortRectanglePoints [(((0:ℤ)),(4:ℤ)),((4:ℤ),(0:ℤ)),((0:ℤ),(0:ℤ)),((1:ℤ),(0:ℤ))]) ≠
      sortRectanglePoints [(((0:ℤ)),(4:ℤ)),((4:ℤ),(0:ℤ)),((0:ℤ),(0:ℤ)),((1:ℤ),(0:ℤ))] := by
  decide

/-- C8 amended: canonical reordering fixes every strictly canonically
ordered quad — one whose first point is the strict minimizer of `x + y`,
third point the strict maximizer of `x + y`, second point the strict
maximizer of `x - y` and fourth point the strict minimizer of `x - y`
(no ties).  Reordering such a quad yields the same quad, hence the
reordering is idempotent on quads without extremal ties. -/
theorem sortRectanglePoints_fixed_of_strict {α : Type} [LinearOrderedRing α]
    (p0 p1 p2 p3 : α × α)
    (h01 : psum p0 < psum p1) (h02 : psum p0 < psum p2) (h03 : psum p0 < psum p3)
    (h12 : psum p1 < psum p2) (h32 : psum p3 < psum p2)
    (hd31 : pdiff p3 < pdiff p1) (hd01 : pdiff p0 < pdiff p1) (hd21 : pdiff p2 < pdiff p1)
    (hd30 : pdiff p3 < pdiff p0) (hd32 : pdiff p3 < pdiff p2) :
    sortRectanglePoints [p0, p1, p2, p3] = [p0, p1, p2, p3] := by
  have hLT : List.foldl (fun m p => if psum p < psum m then p else m) p0 [p0, p1, p2, p3]
      = p0 := by
    simp only [List.foldl]
    rw [if_neg (lt_irrefl _), if_neg (lt_asymm h01), if_neg (lt_asymm h02),
      if_neg (lt_asymm h03)]
  have hRB : List.foldl (fun m p => if psum m < psum p then p else m) p0 [p0, p1, p2, p3]
      = p2 := by
    simp only [List.foldl]
    rw [if_neg (lt_irrefl _), if_pos h01, if_pos h12, if_neg (lt_asymm h32)]
  have hRT : List.foldl (fun m p => if pdiff m < pdiff p then p else m) p0 [p0, p1, p2, p3]
      = p1 := by
    simp only [List.foldl]
    rw [if_neg (lt_irrefl _), if_pos hd01, if_neg (lt_asymm hd21), if_neg (lt_asymm hd31)]
  have hLB : List.foldl (fun m p => if pdiff p < pdiff m then p else m) p0 [p0, p1, p2, p3]
      = p3 := by
    simp only [List.foldl]
    rw [if_neg (lt_irrefl _), if_neg (lt_asymm hd01)]
    by_cases hc : pdiff p2 < pdiff p0
    · rw [if_pos hc, if_pos hd32]
    · rw [if_neg hc, if_pos hd30]
  simp only [sortRectanglePoints]
  rw [hLT, hRB, hRT, hLB]

/-- Witness for the amended C8 on an axis-aligned square. -/
theorem sortRectanglePoints_fixed_of_strict_witness :
    sortRectanglePoints [(((0:ℤ)),(0:ℤ)),((4:ℤ),(0:ℤ)),((4:ℤ),(4:ℤ)),((0:ℤ),(4:ℤ))] =
      [(((0:ℤ)),(0:ℤ)),((4:ℤ),(0:ℤ)),((4:ℤ),(4:ℤ)),((0:ℤ),(4:ℤ))] :=
  sortRectanglePoints_fixed_of_strict ((0:ℤ),(0:ℤ)) ((4:ℤ),(0:ℤ)) ((4:ℤ),(4:ℤ)) ((0:ℤ),(4:ℤ))
    (by decide) (by decide) (by decide) (by decide) (by decide)
    (by decide) (by decide) (by decide) (by decide) (by decide)

/-- With both adjacent edges of nonzero length, the angle loop computes an
ordinary finite real: no division by zero occurs and the clamped cosine
stays in the domain of `acos`. -/
theorem cornerAngle_eq_num (p1 p2 p3 : ℝ × ℝ)
    (h1 : edgeDist p1 p2 ≠ 0) (h2 : edgeDist p2 p3 ≠ 0) :
    cornerAngle p1 p2 p3 = JsNum.num (cornerAngleDeg p1 p2 p3) := by
  unfold edgeDist at h1 h2
  have hprod :
      Real.sqrt ((p2.1 - p1.1) * (p2.1 - p1.1) + (p2.2 - p1.2) * (p2.2 - p1.2)) *
        Real.sqrt ((p3.1 - p2.1) * (p3.1 - p2.1) + (p3.2 - p2.2) * (p3.2 - p2.2)) ≠ 0 :=
    mul_ne_zero h1 h2
  simp only [cornerAngle, cornerAngleDeg]
  rw [jsDiv, if_neg hprod]
  simp only [jsMinC, jsMaxC, jsAcos, jsMulC]
  rw [if_neg]
  push_neg
  constructor
  · exact le_max_left _ _
  · exact max_le (by norm_num) (min_le_left _ _)

/-- C1: a 4-vertex polygon (all four edges of nonzero length) with an
interior angle below 70° or above 110° at some corner is rejected by
`checkRectangleShape`: the loop measures the angle between consecutive
edge vectors, the supplement of the interior angle, so an interior angle
outside `[70°, 110°]` puts the measured angle outside `[70°, 110°]` as
well, and some rejecting branch fires. -/
theorem checkShape_false_of_bad_angle (p0 p1 p2 p3 : ℝ × ℝ)
    (e0 : edgeDist p0 p1 ≠ 0) (e1 : edgeDist p1 p2 ≠ 0)
    (e2 : edgeDist p2 p3 ≠ 0) (e3 : edgeDist p3 p0 ≠ 0)
    (hbad :
      (interiorAngle p0 p1 p2 < 70 ∨ 110 < interiorAngle p0 p1 p2) ∨
      (interiorAngle p1 p2 p3 < 70 ∨ 110 < interiorAngle p1 p2 p3) ∨
      (interiorAngle p2 p3 p0 < 70 ∨ 110 < interiorAngle p2 p3 p0) ∨
      (interiorAngle p3 p0 p1 < 70 ∨ 110 < interiorAngle p3 p0 p1)) :
    checkRectangleShape [p0, p1, p2, p3] = false := by
  have c0 := cornerAngle_eq_num p0 p1 p2 e0 e1
  have c1 := cornerAngle_eq_num p1 p2 p3 e1 e2
  have c2 := cornerAngle_eq_num p2 p3 p0 e2 e3
  have c3 := cornerAngle_eq_num p3 p0 p1 e3 e0
  simp only [checkRectangleShape]
  split_ifs with g1 g2 g3 g4 g5 g6 <;> try rfl
  exfalso
  unfold interiorAngle at hbad
  rcases hbad with h | h | h | h
  · apply g3
    rw [c0]
    rcases h with h | h
    · right
      show (110 : ℝ) < cornerAngleDeg p0 p1 p2
      linarith
    · left
      show cornerAngleDeg p0 p1 p2 < 70
      linarith
  · apply g4
    rw [c1]
    rcases h with h | h
    · right
      show (110 : ℝ) < cornerAngleDeg p1 p2 p3
      linarith
    · left
      show cornerAngleDeg p1 p2 p3 < 70
      linarith
  · apply g5
    rw [c2]
    rcases h with h | h
    · right
      show (110 : ℝ) < cornerAngleDeg p2 p3 p0
      linarith
    · left
      show cornerAngleDeg p2 p3 p0 < 70
      linarith
  · apply g6
    rw [c3]
    rcases h with h | h
    · right
      show (110 : ℝ) < cornerAngleDeg p3 p0 p1
      linarith
    · left
      show cornerAngleDeg p3 p0 p1 < 70
      linarith

/-- Witness for C1: a degenerate-angle quad with three collinear points
has interior angle 180° at the second vertex and is rejected. -/
theorem checkShape_false_of_bad_angle_witness :
    checkRectangleShape [((0:ℝ),(0:ℝ)), ((1:ℝ),(0:ℝ)), ((2:ℝ),(0:ℝ)), ((0:ℝ),(1:ℝ))]
      = false := by
  have e0 : edgeDist ((0:ℝ),(0:ℝ)) ((1:ℝ),(0:ℝ)) ≠ 0 := by
    norm_num [edgeDist, Real.sqrt_one]
  have e1 : edgeDist ((1:ℝ),(0:ℝ)) ((2:ℝ),(0:ℝ)) ≠ 0 := by
    norm_num [edgeDist, Real.sqrt_one]
  have e2 : edgeDist ((2:ℝ),(0:ℝ)) ((0:ℝ),(1:ℝ)) ≠ 0 := by
    norm_num [edgeDist, Real.sqrt_ne_zero']
  have e3 : edgeDist ((0:ℝ),(1:ℝ)) ((0:ℝ),(0:ℝ)) ≠ 0 := by
    norm_num [edgeDist, Real.sqrt_one]
  have hang : (110 : ℝ) < interiorAngle ((0:ℝ),(0:ℝ)) ((1:ℝ),(0:ℝ)) ((2:ℝ),(0:ℝ)) := by
    norm_num [interiorAngle, cornerAngleDeg, Real.sqrt_one, Real.arccos_one]
  exact checkShape_false_of_bad_angle ((0:ℝ),(0:ℝ)) ((1:ℝ),(0:ℝ)) ((2:ℝ),(0:ℝ)) ((0:ℝ),(1:ℝ))
    e0 e1 e2 e3 (Or.inl (Or.inr hang))

/-- C10: on the fully degenerate quad whose four points coincide, every
edge length is 0, so the opposite-side ratios, the aspect ratio and the
corner cosines are all `0/0 = NaN`; every rejecting comparison against
`NaN` is false, so `checkRectangleShape` falls through and accepts. -/
theorem checkShape_true_of_degenerate :
    checkRectangleShape [((0:ℝ),(0:ℝ)), ((0:ℝ),(0:ℝ)), ((0:ℝ),(0:ℝ)), ((0:ℝ),(0:ℝ))]
      = true := by
  have hd : edgeDist (0 : ℝ × ℝ) (0 : ℝ × ℝ) = 0 := by
    simp [edgeDist]
  have hnan : jsDiv 0 0 = JsNum.nan := by simp [jsDiv]
  have hca : cornerAngle (0 : ℝ × ℝ) (0 : ℝ × ℝ) (0 : ℝ × ℝ) = JsNum.nan := by
    simp [cornerAngle, jsDiv, jsMinC, jsMaxC, jsAcos, jsMulC]
  simp [checkRectangleShape, hd, hca, hnan, JsNum.ltR, JsNum.gtR, min_self, max_self]
